import Mathlib

/-!
Shallow embedding of `smqtk/iqr/iqr_session.py` (class `IqrSession`).

Python sets of descriptor elements are modelled as `Finset DescriptorElement`;
the relevancy scores (Python floats) as rationals; the relevancy index
(an external collaborator constructed from `rel_index_config`) as an optional
ranking function stored in the session state; the nearest-neighbor index as a
function parameter.  Fallible methods return the post-call state together with
an optional error, so that the state reached when an exception is raised is
observable.  Where the Python code iterates over a set in unspecified hash
order (the `update_working_set` loop, the `get_state_bytes` snapshot), the
enumeration order is taken as an explicit list parameter, and theorems
quantify over all enumerations of the set in question.
-/

/-- A descriptor element: identity (`uuid`), type tag and an optional vector
(`vec = none` models an element whose vector has not been set). -/
structure DescriptorElement where
  uuid : Nat
  dtype : String
  vec : Option (List Int)
deriving DecidableEq, Repr

/-- Relevancy scores (Python floats) are modelled as rationals. -/
abbrev Score := ℚ

/-- The interface of a built relevancy index: `rank(pos, neg)` returning the
item/score mapping as an association list (Python dict items). -/
abbrev RankFn :=
  Finset DescriptorElement → Finset DescriptorElement → List (DescriptorElement × Score)

/-- The mutable state of an `IqrSession` (all fields of `__init__` that the
session's methods read or write, minus the lock/uuid/config which never
change). -/
structure IqrSession where
  pos_seed_neighbors : Nat
  working_set : Finset DescriptorElement
  wi_seeds_used : Finset Nat
  external_positive_descriptors : Finset DescriptorElement
  external_negative_descriptors : Finset DescriptorElement
  positive_descriptors : Finset DescriptorElement
  negative_descriptors : Finset DescriptorElement
  rank_contrib_pos : Finset DescriptorElement
  rank_contrib_pos_ext : Finset DescriptorElement
  rank_contrib_neg : Finset DescriptorElement
  rank_contrib_neg_ext : Finset DescriptorElement
  results : Option (List (DescriptorElement × Score))
  ordered_results_cache : Option (List (DescriptorElement × Score))
  ordered_pos_cache : Option (List (DescriptorElement × Score))
  ordered_neg_cache : Option (List (DescriptorElement × Score))
  ordered_non_adj_cache : Option (List (DescriptorElement × Score))
  rel_index : Option RankFn

/-- Errors raised by session methods (`RuntimeError` / `ValueError` /
`AssertionError` in the Python source). -/
inductive IqrError where
  | noPositiveExamples
  | noRelevancyIndex
  | noPositiveAdjudications
  | invalidStateArchive
  | vectorMismatch
deriving DecidableEq, Repr

/-- The state of a fresh session (`IqrSession.__init__`). -/
def initialState : IqrSession where
  pos_seed_neighbors := 500
  working_set := ∅
  wi_seeds_used := ∅
  external_positive_descriptors := ∅
  external_negative_descriptors := ∅
  positive_descriptors := ∅
  negative_descriptors := ∅
  rank_contrib_pos := ∅
  rank_contrib_pos_ext := ∅
  rank_contrib_neg := ∅
  rank_contrib_neg_ext := ∅
  results := none
  ordered_results_cache := none
  ordered_pos_cache := none
  ordered_neg_cache := none
  ordered_non_adj_cache := none
  rel_index := none

/-- `IqrSession.external_descriptors`: union the inputs into the external
sets, then remove each input from the opposite set. -/
def external_descriptors (s : IqrSession)
    (positive negative : Finset DescriptorElement) : IqrSession :=
  { s with
    external_positive_descriptors :=
      (s.external_positive_descriptors ∪ positive) \ negative
    external_negative_descriptors :=
      (s.external_negative_descriptors ∪ negative) \ positive }

/-- `IqrSession.adjudicate`: update the positive/negative ledger sets and
reset the view caches whose underlying set actually changed. -/
def adjudicate (s : IqrSession)
    (new_positives new_negatives un_positives un_negatives :
      Finset DescriptorElement) : IqrSession :=
  let pos_after :=
    ((s.positive_descriptors ∪ new_positives) \ un_positives) \ new_negatives
  let pos_changed : Bool := decide (pos_after ≠ s.positive_descriptors)
  let neg_after :=
    ((s.negative_descriptors ∪ new_negatives) \ un_negatives) \ new_positives
  let neg_changed : Bool := decide (neg_after ≠ s.negative_descriptors)
  { s with
    positive_descriptors := pos_after
    negative_descriptors := neg_after
    ordered_pos_cache := if pos_changed then none else s.ordered_pos_cache
    ordered_neg_cache := if neg_changed then none else s.ordered_neg_cache
    ordered_non_adj_cache :=
      if pos_changed || neg_changed then none else s.ordered_non_adj_cache }

/-- The positive examples used by `update_working_set`
(`external_positive_descriptors | positive_descriptors`). -/
def posExamples (s : IqrSession) : Finset DescriptorElement :=
  s.external_positive_descriptors ∪ s.positive_descriptors

/-- The seed loop of `IqrSession.update_working_set`: walk the positive
examples in the given order; for each whose uuid is not yet in the used-seed
set, query the neighbor index, add the neighbors to the working set, record
the uuid, and log the query.  Returns final working set, used-seed set and
the list of queried uuids. -/
def uwsLoop (nn : DescriptorElement → Nat → List DescriptorElement) (k : Nat) :
    List DescriptorElement → Finset DescriptorElement → Finset Nat → List Nat →
    Finset DescriptorElement × Finset Nat × List Nat
  | [], ws, seeds, log => (ws, seeds, log)
  | p :: rest, ws, seeds, log =>
    if p.uuid ∈ seeds then
      uwsLoop nn k rest ws seeds log
    else
      uwsLoop nn k rest (ws ∪ (nn p k).toFinset) (insert p.uuid seeds)
        (log ++ [p.uuid])

/-- `IqrSession.update_working_set`.  `nn` models `nn_index.nn` (returning the
neighbor elements), `mk` models constructing a relevancy index from
`rel_index_config` and building it over a working set, and `ps` is the order
in which the Python `for` loop happens to enumerate `posExamples s`.  Returns
the post-call state, the raised error if any, and the uuids queried against
the neighbor index. -/
def update_working_set (s : IqrSession)
    (nn : DescriptorElement → Nat → List DescriptorElement)
    (mk : Finset DescriptorElement → RankFn)
    (ps : List DescriptorElement) :
    IqrSession × Option IqrError × List Nat :=
  if posExamples s = ∅ then
    (s, some .noPositiveExamples, [])
  else
    let r := uwsLoop nn s.pos_seed_neighbors ps s.working_set s.wi_seeds_used []
    let s' := { s with working_set := r.1, wi_seeds_used := r.2.1 }
    if r.2.2.isEmpty then
      (s', none, r.2.2)
    else
      ({ s' with rel_index := some (mk r.1) }, none, r.2.2)

/-- The positive set passed to `rel_index.rank` by `refine`
(`positive_descriptors | external_positive_descriptors`). -/
def refinePos (s : IqrSession) : Finset DescriptorElement :=
  s.positive_descriptors ∪ s.external_positive_descriptors

/-- The negative set passed to `rel_index.rank` by `refine`
(`negative_descriptors | external_negative_descriptors`). -/
def refineNeg (s : IqrSession) : Finset DescriptorElement :=
  s.negative_descriptors ∪ s.external_negative_descriptors

/-- `IqrSession.refine`: check the relevancy index and positive adjudications,
rank, replace `results`, snapshot the four ledger sets, clear all four view
caches. -/
def refine (s : IqrSession) : IqrSession × Option IqrError :=
  match s.rel_index with
  | none => (s, some .noRelevancyIndex)
  | some rank =>
    if refinePos s = ∅ then
      (s, some .noPositiveAdjudications)
    else
      ({ s with
          results := some (rank (refinePos s) (refineNeg s))
          rank_contrib_pos := s.positive_descriptors
          rank_contrib_pos_ext := s.external_positive_descriptors
          rank_contrib_neg := s.negative_descriptors
          rank_contrib_neg_ext := s.external_negative_descriptors
          ordered_results_cache := none
          ordered_pos_cache := none
          ordered_neg_cache := none
          ordered_non_adj_cache := none }, none)

/-- Score-descending order on result pairs (the `reverse=True` sort key of
`ordered_results`). -/
def scoreGe (a b : DescriptorElement × Score) : Prop := b.2 ≤ a.2

instance : DecidableRel scoreGe :=
  fun a b => inferInstanceAs (Decidable (b.2 ≤ a.2))

instance : IsTotal (DescriptorElement × Score) scoreGe :=
  ⟨fun a b => le_total b.2 a.2⟩

instance : IsTrans (DescriptorElement × Score) scoreGe :=
  ⟨fun _ _ _ h1 h2 => le_trans h2 h1⟩

/-- `sorted(result_items, key=lambda p: p[1], reverse=True)`. -/
def sortResults (m : List (DescriptorElement × Score)) :
    List (DescriptorElement × Score) :=
  List.insertionSort scoreGe m

/-- `IqrSession.ordered_results`: return the cached ordering if present;
otherwise, with no results, return the empty list without caching; otherwise
sort the results descending by score and cache the ordering.  Returns the
list together with the post-call state. -/
def ordered_results (s : IqrSession) :
    List (DescriptorElement × Score) × IqrSession :=
  match s.ordered_results_cache with
  | some r => (r, s)
  | none =>
    match s.results with
    | none => ([], s)
    | some m =>
      let r := sortResults m
      (r, { s with ordered_results_cache := some r })

/-- `IqrSession.get_positive_adjudication_relevancy`: filter the ordered
results by membership in the positive rank-contribution snapshot. -/
def get_positive_adjudication_relevancy (s : IqrSession) :
    List (DescriptorElement × Score) × IqrSession :=
  match s.ordered_pos_cache with
  | some r => (r, s)
  | none =>
    let rcp := s.rank_contrib_pos ∪ s.rank_contrib_pos_ext
    let ar := ordered_results s
    let r := ar.1.filter (fun t => decide (t.1 ∈ rcp))
    (r, { ar.2 with ordered_pos_cache := some r })

/-- `IqrSession.get_negative_adjudication_relevancy`: filter the ordered
results by membership in the negative rank-contribution snapshot. -/
def get_negative_adjudication_relevancy (s : IqrSession) :
    List (DescriptorElement × Score) × IqrSession :=
  match s.ordered_neg_cache with
  | some r => (r, s)
  | none =>
    let rcn := s.rank_contrib_neg ∪ s.rank_contrib_neg_ext
    let ar := ordered_results s
    let r := ar.1.filter (fun t => decide (t.1 ∈ rcn))
    (r, { ar.2 with ordered_neg_cache := some r })

/-- `IqrSession.get_unadjudicated_relevancy`: filter the ordered results to
items in none of the four rank-contribution snapshots. -/
def get_unadjudicated_relevancy (s : IqrSession) :
    List (DescriptorElement × Score) × IqrSession :=
  match s.ordered_non_adj_cache with
  | some r => (r, s)
  | none =>
    let pn := s.rank_contrib_pos ∪ s.rank_contrib_pos_ext ∪
      s.rank_contrib_neg ∪ s.rank_contrib_neg_ext
    let ar := ordered_results s
    let r := ar.1.filter (fun t => decide (t.1 ∉ pn))
    (r, { ar.2 with ordered_non_adj_cache := some r })

/-- `IqrSession.reset`: clear every set, the results, the caches and the
relevancy index. -/
def reset (s : IqrSession) : IqrSession :=
  { s with
    working_set := ∅
    wi_seeds_used := ∅
    positive_descriptors := ∅
    negative_descriptors := ∅
    external_positive_descriptors := ∅
    external_negative_descriptors := ∅
    rank_contrib_pos := ∅
    rank_contrib_pos_ext := ∅
    rank_contrib_neg := ∅
    rank_contrib_neg_ext := ∅
    rel_index := none
    results := none
    ordered_results_cache := none
    ordered_pos_cache := none
    ordered_neg_cache := none
    ordered_non_adj_cache := none }

/-- A `(uuid, type, vector)` triple as serialized by `get_state_bytes`. -/
abbrev Triple := Nat × String × List Int

/-- The JSON payload of the state archive: the four named triple lists. -/
structure StateData where
  pos : List Triple
  neg : List Triple
  external_pos : List Triple
  external_neg : List Triple
deriving DecidableEq, Repr

/-- The zip archive produced by `get_state_bytes`: named entries. -/
structure StateArchive where
  entries : List (String × StateData)
deriving DecidableEq, Repr

/-- `IqrSession.STATE_ZIP_FILENAME`. -/
def STATE_ZIP_FILENAME : String := "iqr_state.json"

/-- `d_set_to_list` inside `get_state_bytes`: each descriptor becomes its
`(uuid, type, vector)` triple; a descriptor without a vector makes the whole
conversion fail (`d.vector().tolist()` raises on a missing vector). -/
def d_set_to_list : List DescriptorElement → Option (List Triple)
  | [] => some []
  | d :: rest =>
    match d.vec with
    | none => none
    | some v => (d_set_to_list rest).map (fun tl => (d.uuid, d.dtype, v) :: tl)

/-- `IqrSession.get_state_bytes`.  The four list arguments are the orders in
which the Python code happens to enumerate the four ledger sets. -/
def get_state_bytes (s : IqrSession)
    (posL negL eposL enegL : List DescriptorElement) : Option StateArchive :=
  (d_set_to_list posL).bind (fun p =>
    (d_set_to_list negL).bind (fun n =>
      (d_set_to_list eposL).bind (fun ep =>
        (d_set_to_list enegL).map (fun en =>
          { entries := [(STATE_ZIP_FILENAME, ⟨p, n, ep, en⟩)] }))))

/-- A descriptor element factory (`descriptor_factory.new_descriptor`). -/
abbrev DescriptorFactory := String → Nat → DescriptorElement

/-- `load_descriptor` inside `set_state_bytes`: build the element from the
factory; if it already has a vector it must equal the stored one (`none`
models the failing assertion), otherwise the stored vector is assigned. -/
def load_descriptor (factory : DescriptorFactory) (uid : Nat) (ts : String)
    (vl : List Int) : Option DescriptorElement :=
  let e := factory ts uid
  match e.vec with
  | some v => if v = vl then some e else none
  | none => some { e with vec := some vl }

/-- Load a triple list into a target set, stopping at the first vector
mismatch; returns the (possibly partially) updated set and whether the whole
list was loaded. -/
def loadList (factory : DescriptorFactory) :
    List Triple → Finset DescriptorElement → Finset DescriptorElement × Bool
  | [], acc => (acc, true)
  | t :: rest, acc =>
    match load_descriptor factory t.1 t.2.1 t.2.2 with
    | some e => loadList factory rest (insert e acc)
    | none => (acc, false)

/-- `IqrSession.set_state_bytes`: check the archive entry name, reset the
session, then load the four triple lists in source order
(`external_pos`, `external_neg`, `pos`, `neg`); an assertion failure aborts
mid-load, leaving the already-performed mutations in place. -/
def set_state_bytes (s : IqrSession) (a : StateArchive)
    (factory : DescriptorFactory) : IqrSession × Option IqrError :=
  match a.entries.lookup STATE_ZIP_FILENAME with
  | none => (s, some .invalidStateArchive)
  | some st =>
    let s0 := reset s
    let rep := loadList factory st.external_pos s0.external_positive_descriptors
    let s1 := { s0 with external_positive_descriptors := rep.1 }
    if rep.2 = false then (s1, some .vectorMismatch) else
    let ren := loadList factory st.external_neg s1.external_negative_descriptors
    let s2 := { s1 with external_negative_descriptors := ren.1 }
    if ren.2 = false then (s2, some .vectorMismatch) else
    let rp := loadList factory st.pos s2.positive_descriptors
    let s3 := { s2 with positive_descriptors := rp.1 }
    if rp.2 = false then (s3, some .vectorMismatch) else
    let rn := loadList factory st.neg s3.negative_descriptors
    let s4 := { s3 with negative_descriptors := rn.1 }
    if rn.2 = false then (s4, some .vectorMismatch) else
    (s4, none)

/-- An adjudication-ledger call: `adjudicate` or `external_descriptors`
(claim-level call sequences over the ledger only). -/
inductive LedgerOp where
  | adj (np nng up ung : Finset DescriptorElement)
  | ext (p n : Finset DescriptorElement)

/-- Apply one ledger call. -/
def applyLedgerOp (s : IqrSession) : LedgerOp → IqrSession
  | .adj np nng up ung => adjudicate s np nng up ung
  | .ext p n => external_descriptors s p n

/-- Run a sequence of ledger calls. -/
def runLedger (s : IqrSession) : List LedgerOp → IqrSession
  | [] => s
  | op :: rest => runLedger (applyLedgerOp s op) rest

/-- Any public session call (used to quantify over reachable session
states). -/
inductive Op where
  | adj (np nng up ung : Finset DescriptorElement)
  | ext (p n : Finset DescriptorElement)
  | uws (nn : DescriptorElement → Nat → List DescriptorElement)
      (mk : Finset DescriptorElement → RankFn) (ps : List DescriptorElement)
  | ref
  | rst
  | setState (a : StateArchive) (factory : DescriptorFactory)
  | viewAll
  | viewPos
  | viewNeg
  | viewUnadj

/-- Whether an op clears `wi_seeds_used` (ends the seed-query "session
lifetime"). -/
def opResets : Op → Bool
  | .rst => true
  | .setState _ _ => true
  | _ => false

/-- One step of the session: the post-call state and the uuids queried
against the neighbor index during the call. -/
def step (s : IqrSession) : Op → IqrSession × List Nat
  | .adj np nng up ung => (adjudicate s np nng up ung, [])
  | .ext p n => (external_descriptors s p n, [])
  | .uws nn mk ps =>
    ((update_working_set s nn mk ps).1, (update_working_set s nn mk ps).2.2)
  | .ref => ((refine s).1, [])
  | .rst => (reset s, [])
  | .setState a factory => ((set_state_bytes s a factory).1, [])
  | .viewAll => ((ordered_results s).2, [])
  | .viewPos => ((get_positive_adjudication_relevancy s).2, [])
  | .viewNeg => ((get_negative_adjudication_relevancy s).2, [])
  | .viewUnadj => ((get_unadjudicated_relevancy s).2, [])

/-- Run a sequence of calls, collecting the neighbor-query log. -/
def runOps (s : IqrSession) : List Op → IqrSession × List Nat
  | [] => (s, [])
  | op :: rest =>
    let p := step s op
    let q := runOps p.1 rest
    (q.1, p.2 ++ q.2)

/-- The two mutual-exclusion invariants of the adjudication ledger. -/
def ledgerInv (s : IqrSession) : Prop :=
  s.positive_descriptors ∩ s.negative_descriptors = ∅ ∧
  s.external_positive_descriptors ∩ s.external_negative_descriptors = ∅

lemma sdiff_pair_inter_empty {α : Type} [DecidableEq α]
    {P N : Finset α} (np nng up ung : Finset α) (h : P ∩ N = ∅) :
    (((P ∪ np) \ up) \ nng) ∩ (((N ∪ nng) \ ung) \ np) = ∅ := by
  rw [Finset.eq_empty_iff_forall_not_mem] at h ⊢
  intro x hx
  simp only [Finset.mem_inter, Finset.mem_sdiff, Finset.mem_union] at hx
  exact h x (Finset.mem_inter.mpr
    ⟨hx.1.1.1.resolve_right hx.2.2, hx.2.1.1.resolve_right hx.1.2⟩)

lemma ledgerInv_applyLedgerOp (s : IqrSession) (op : LedgerOp)
    (h : ledgerInv s) : ledgerInv (applyLedgerOp s op) := by
  cases op with
  | adj np nng up ung =>
    exact ⟨sdiff_pair_inter_empty np nng up ung h.1, h.2⟩
  | ext p n =>
    refine ⟨h.1, ?_⟩
    have := sdiff_pair_inter_empty (P := s.external_positive_descriptors)
      (N := s.external_negative_descriptors) p n ∅ ∅ h.2
    simpa [external_descriptors] using this

lemma ledgerInv_runLedger : ∀ (ops : List LedgerOp) (s : IqrSession),
    ledgerInv s → ledgerInv (runLedger s ops)
  | [], _, h => h
  | op :: rest, s, h =>
    ledgerInv_runLedger rest _ (ledgerInv_applyLedgerOp s op h)

/-- C1: for every sequence of `adjudicate` / `external_descriptors` calls
starting from the fresh session, the internal ledger satisfies
`positive ∩ negative = ∅` and the external ledger satisfies
`externalPositive ∩ externalNegative = ∅` after every call. -/
theorem ledger_sets_disjoint (ops : List LedgerOp) :
    (runLedger initialState ops).positive_descriptors ∩
      (runLedger initialState ops).negative_descriptors = ∅ ∧
    (runLedger initialState ops).external_positive_descriptors ∩
      (runLedger initialState ops).external_negative_descriptors = ∅ :=
  ledgerInv_runLedger ops initialState (by constructor <;> rfl)

/-- C4: `adjudicate` leaves `positive` equal to
`(positive ∪ newPos) − unPos − newNeg` and `negative` equal to
`(negative ∪ newNeg) − unNeg − newPos` (stated both as set equations and as
membership characterizations), and an item passed in both `newPos` and
`newNeg` ends up in neither resulting set. -/
theorem adjudicate_set_algebra (s : IqrSession)
    (np nng up ung : Finset DescriptorElement) :
    ((adjudicate s np nng up ung).positive_descriptors =
        ((s.positive_descriptors ∪ np) \ up) \ nng ∧
      (adjudicate s np nng up ung).negative_descriptors =
        ((s.negative_descriptors ∪ nng) \ ung) \ np) ∧
    (∀ x, (x ∈ (adjudicate s np nng up ung).positive_descriptors ↔
        (x ∈ s.positive_descriptors ∨ x ∈ np) ∧ x ∉ up ∧ x ∉ nng) ∧
      (x ∈ (adjudicate s np nng up ung).negative_descriptors ↔
        (x ∈ s.negative_descriptors ∨ x ∈ nng) ∧ x ∉ ung ∧ x ∉ np)) ∧
    (∀ x, x ∈ np → x ∈ nng →
      x ∉ (adjudicate s np nng up ung).positive_descriptors ∧
      x ∉ (adjudicate s np nng up ung).negative_descriptors) := by
  refine ⟨⟨rfl, rfl⟩, ?_, ?_⟩
  · intro x
    constructor <;>
      simp [adjudicate, Finset.mem_sdiff, Finset.mem_union, and_assoc]
  · intro x hp hn
    constructor <;> simp [adjudicate, Finset.mem_sdiff, Finset.mem_union] <;>
      intro h <;> simp [hp, hn] at h ⊢

/-- A concrete descriptor element used by the `adjudicate` witnesses. -/
def dW4 : DescriptorElement := ⟨1, "a", none⟩

/-- C4 witness: at a concrete session and argument sets, an item passed in
both `newPos` and `newNeg` is in neither resulting ledger set. -/
theorem adjudicate_set_algebra_witness :
    dW4 ∉ (adjudicate initialState {dW4} {dW4} ∅ ∅).positive_descriptors ∧
    dW4 ∉ (adjudicate initialState {dW4} {dW4} ∅ ∅).negative_descriptors :=
  (adjudicate_set_algebra initialState {dW4} {dW4} ∅ ∅).2.2 dW4
    (Finset.mem_singleton_self _) (Finset.mem_singleton_self _)

/-- C5: after `adjudicate`, the `orderedPositive` cache is cleared exactly
when the positive set actually changed (and otherwise left alone), the
`orderedNegative` cache exactly when the negative set changed, the
`orderedUnlabeled` cache exactly when either changed, and the `orderedAll`
cache is never touched by `adjudicate`; a successful `refine` is what clears
the `orderedAll` cache. -/
theorem adjudicate_cache_invalidation (s : IqrSession)
    (np nng up ung : Finset DescriptorElement) :
    ((adjudicate s np nng up ung).positive_descriptors = s.positive_descriptors →
      (adjudicate s np nng up ung).ordered_pos_cache = s.ordered_pos_cache) ∧
    ((adjudicate s np nng up ung).positive_descriptors ≠ s.positive_descriptors →
      (adjudicate s np nng up ung).ordered_pos_cache = none) ∧
    ((adjudicate s np nng up ung).negative_descriptors = s.negative_descriptors →
      (adjudicate s np nng up ung).ordered_neg_cache = s.ordered_neg_cache) ∧
    ((adjudicate s np nng up ung).negative_descriptors ≠ s.negative_descriptors →
      (adjudicate s np nng up ung).ordered_neg_cache = none) ∧
    ((adjudicate s np nng up ung).positive_descriptors = s.positive_descriptors ∧
        (adjudicate s np nng up ung).negative_descriptors = s.negative_descriptors →
      (adjudicate s np nng up ung).ordered_non_adj_cache = s.ordered_non_adj_cache) ∧
    ((adjudicate s np nng up ung).positive_descriptors ≠ s.positive_descriptors ∨
        (adjudicate s np nng up ung).negative_descriptors ≠ s.negative_descriptors →
      (adjudicate s np nng up ung).ordered_non_adj_cache = none) ∧
    (adjudicate s np nng up ung).ordered_results_cache = s.ordered_results_cache ∧
    (∀ rank, s.rel_index = some rank → refinePos s ≠ ∅ →
      (refine s).1.ordered_results_cache = none) := by
  refine ⟨?_, ?_, ?_, ?_, ?_, ?_, rfl, ?_⟩
  · intro h; simp only [adjudicate] at h ⊢; simp [h]
  · intro h; simp only [adjudicate] at h ⊢; simp [h]
  · intro h; simp only [adjudicate] at h ⊢; simp [h]
  · intro h; simp only [adjudicate] at h ⊢; simp [h]
  · intro h; simp only [adjudicate] at h ⊢; simp [h.1, h.2]
  · intro h; simp only [adjudicate] at h ⊢
    rcases h with h | h <;> simp [h]
  · intro rank hr hp
    simp [refine, hr, hp]

/-- A session whose caches are all populated, used by the C5 witness. -/
def sW5 : IqrSession :=
  { initialState with
    ordered_results_cache := some []
    ordered_pos_cache := some []
    ordered_neg_cache := some []
    ordered_non_adj_cache := some [] }

/-- C5 witness: with all caches populated, adjudicating a fresh positive
clears the `orderedPositive` and `orderedUnlabeled` caches, leaves the
untouched `orderedNegative` cache alone, and never touches the `orderedAll`
cache. -/
theorem adjudicate_cache_invalidation_witness :
    (adjudicate sW5 {dW4} ∅ ∅ ∅).ordered_pos_cache = none ∧
    (adjudicate sW5 {dW4} ∅ ∅ ∅).ordered_neg_cache = sW5.ordered_neg_cache ∧
    (adjudicate sW5 {dW4} ∅ ∅ ∅).ordered_non_adj_cache = none ∧
    (adjudicate sW5 {dW4} ∅ ∅ ∅).ordered_results_cache = sW5.ordered_results_cache :=
  ⟨(adjudicate_cache_invalidation sW5 {dW4} ∅ ∅ ∅).2.1 (by decide),
   (adjudicate_cache_invalidation sW5 {dW4} ∅ ∅ ∅).2.2.1 (by decide),
   (adjudicate_cache_invalidation sW5 {dW4} ∅ ∅ ∅).2.2.2.2.2.1
     (Or.inl (by decide)),
   (adjudicate_cache_invalidation sW5 {dW4} ∅ ∅ ∅).2.2.2.2.2.2.1⟩

/-- C8: `refine` fails with the not-initialized error exactly when the
relevancy-index handle is absent; with a handle present it fails with the
no-positive-adjudications error exactly when `positive ∪ externalPositive`
is empty; otherwise it succeeds, replacing `results` wholesale with the
ranker's mapping on the combined positive/negative sets, snapshotting the
four adjudication sets, and clearing all four cached views. -/
theorem refine_spec (s : IqrSession) :
    ((refine s).2 = some IqrError.noRelevancyIndex ↔ s.rel_index = none) ∧
    (∀ rank, s.rel_index = some rank →
      (((refine s).2 = some IqrError.noPositiveAdjudications ↔
          refinePos s = ∅) ∧
        (refinePos s ≠ ∅ →
          (refine s).2 = none ∧
          (refine s).1.results = some (rank (refinePos s) (refineNeg s)) ∧
          (refine s).1.rank_contrib_pos = s.positive_descriptors ∧
          (refine s).1.rank_contrib_pos_ext = s.external_positive_descriptors ∧
          (refine s).1.rank_contrib_neg = s.negative_descriptors ∧
          (refine s).1.rank_contrib_neg_ext = s.external_negative_descriptors ∧
          (refine s).1.ordered_results_cache = none ∧
          (refine s).1.ordered_pos_cache = none ∧
          (refine s).1.ordered_neg_cache = none ∧
          (refine s).1.ordered_non_adj_cache = none))) := by
  constructor
  · cases h : s.rel_index with
    | none => simp [refine, h]
    | some rank =>
      simp only [refine, h]
      by_cases hp : refinePos s = ∅ <;> simp [hp]
  · intro rank h
    constructor
    · simp only [refine, h]
      by_cases hp : refinePos s = ∅ <;> simp [hp]
    · intro hp
      simp [refine, h, hp]

/-- A session with a relevancy index and one positive adjudication, used by
the C8 witness. -/
def sW8 : IqrSession :=
  { initialState with
    positive_descriptors := {dW4}
    rel_index := some (fun _ _ => [(dW4, 1)]) }

/-- C8 witness: at a concrete session with a relevancy index and one positive
adjudication, `refine` succeeds, stores the ranker's mapping, and clears the
cached views. -/
theorem refine_spec_witness :
    (refine sW8).2 = none ∧
    (refine sW8).1.results =
      some ((fun _ _ => [(dW4, 1)] : RankFn) (refinePos sW8) (refineNeg sW8)) ∧
    (refine sW8).1.rank_contrib_pos = sW8.positive_descriptors ∧
    (refine sW8).1.rank_contrib_pos_ext = sW8.external_positive_descriptors ∧
    (refine sW8).1.rank_contrib_neg = sW8.negative_descriptors ∧
    (refine sW8).1.rank_contrib_neg_ext = sW8.external_negative_descriptors ∧
    (refine sW8).1.ordered_results_cache = none ∧
    (refine sW8).1.ordered_pos_cache = none ∧
    (refine sW8).1.ordered_neg_cache = none ∧
    (refine sW8).1.ordered_non_adj_cache = none :=
  (refine_spec sW8).2 (fun _ _ => [(dW4, 1)]) rfl |>.2 (by decide)

/-- Consistency of the `orderedAll` cache with the score mapping: the cache
is either unset or the descending sort of the current results. -/
def resultsCacheOK (s : IqrSession) : Prop :=
  s.ordered_results_cache = none ∨
    ∃ m, s.results = some m ∧ s.ordered_results_cache = some (sortResults m)

lemma resultsCacheOK_congr (s t : IqrSession) (h1 : t.results = s.results)
    (h2 : t.ordered_results_cache = s.ordered_results_cache)
    (h : resultsCacheOK s) : resultsCacheOK t := by
  unfold resultsCacheOK at h ⊢
  rw [h1, h2]
  exact h

lemma resultsCacheOK_ordered_results (s : IqrSession)
    (h : resultsCacheOK s) : resultsCacheOK (ordered_results s).2 := by
  cases hc : s.ordered_results_cache with
  | some r =>
    simp only [ordered_results, hc]
    exact h
  | none =>
    cases hm : s.results with
    | none =>
      simp only [ordered_results, hc, hm]
      exact h
    | some m =>
      simp only [ordered_results, hc, hm]
      exact Or.inr ⟨m, rfl, rfl⟩

lemma resultsCacheOK_set_state_bytes (s : IqrSession) (a : StateArchive)
    (factory : DescriptorFactory) :
    resultsCacheOK (set_state_bytes s a factory).1 ∨
      (set_state_bytes s a factory).1 = s := by
  unfold set_state_bytes
  cases a.entries.lookup STATE_ZIP_FILENAME with
  | none => exact Or.inr rfl
  | some st =>
    simp only
    split
    · exact Or.inl (Or.inl rfl)
    · split
      · exact Or.inl (Or.inl rfl)
      · split
        · exact Or.inl (Or.inl rfl)
        · split
          · exact Or.inl (Or.inl rfl)
          · exact Or.inl (Or.inl rfl)

lemma resultsCacheOK_step (s : IqrSession) (op : Op)
    (h : resultsCacheOK s) : resultsCacheOK (step s op).1 := by
  cases op with
  | adj np nng up ung => exact h
  | ext p n => exact h
  | uws nn mk ps =>
    show resultsCacheOK (update_working_set s nn mk ps).1
    by_cases he : posExamples s = ∅
    · simp only [update_working_set, he, if_pos]
      exact h
    · refine resultsCacheOK_congr s _ ?_ ?_ h <;>
        (simp only [update_working_set, he, if_neg, not_false_iff]; split <;> rfl)
  | ref =>
    show resultsCacheOK (refine s).1
    cases hr : s.rel_index with
    | none =>
      simp only [refine, hr]
      exact h
    | some rank =>
      by_cases hp : refinePos s = ∅
      · simp only [refine, hr, hp, if_pos]
        exact h
      · simp only [refine, hr, hp, if_neg, not_false_iff]
        exact Or.inl rfl
  | rst => exact Or.inl rfl
  | setState a factory =>
    rcases resultsCacheOK_set_state_bytes s a factory with h' | h'
    · exact h'
    · show resultsCacheOK (set_state_bytes s a factory).1
      rw [h']
      exact h
  | viewAll => exact resultsCacheOK_ordered_results s h
  | viewPos =>
    show resultsCacheOK (get_positive_adjudication_relevancy s).2
    cases hc : s.ordered_pos_cache with
    | some r =>
      simp only [get_positive_adjudication_relevancy, hc]
      exact h
    | none =>
      simp only [get_positive_adjudication_relevancy, hc]
      exact resultsCacheOK_congr (ordered_results s).2 _ rfl rfl
        (resultsCacheOK_ordered_results s h)
  | viewNeg =>
    show resultsCacheOK (get_negative_adjudication_relevancy s).2
    cases hc : s.ordered_neg_cache with
    | some r =>
      simp only [get_negative_adjudication_relevancy, hc]
      exact h
    | none =>
      simp only [get_negative_adjudication_relevancy, hc]
      exact resultsCacheOK_congr (ordered_results s).2 _ rfl rfl
        (resultsCacheOK_ordered_results s h)
  | viewUnadj =>
    show resultsCacheOK (get_unadjudicated_relevancy s).2
    cases hc : s.ordered_non_adj_cache with
    | some r =>
      simp only [get_unadjudicated_relevancy, hc]
      exact h
    | none =>
      simp only [get_unadjudicated_relevancy, hc]
      exact resultsCacheOK_congr (ordered_results s).2 _ rfl rfl
        (resultsCacheOK_ordered_results s h)

lemma resultsCacheOK_runOps : ∀ (ops : List Op) (s : IqrSession),
    resultsCacheOK s → resultsCacheOK (runOps s ops).1
  | [], _, h => h
  | op :: rest, s, h =>
    resultsCacheOK_runOps rest (step s op).1 (resultsCacheOK_step s op h)

lemma ordered_results_of_cacheOK (s : IqrSession) (h : resultsCacheOK s) :
    (∀ m, s.results = some m → (ordered_results s).1 = sortResults m) ∧
    (s.results = none →
      (ordered_results s).1 = [] ∧ (ordered_results s).2 = s) := by
  constructor
  · intro m hm
    cases hc : s.ordered_results_cache with
    | none => simp only [ordered_results, hc, hm]
    | some r =>
      rcases h with h | ⟨m', hm', hc'⟩
      · rw [h] at hc; cases hc
      · rw [hm] at hm'
        cases hm'
        rw [hc'] at hc
        cases hc
        simp only [ordered_results, hc']
  · intro hm
    have hc : s.ordered_results_cache = none := by
      rcases h with h | ⟨m', hm', _⟩
      · exact h
      · rw [hm] at hm'; cases hm'
    constructor <;> simp only [ordered_results, hc, hm]

/-- C9: in every reachable session state, `ordered_results` returns a
sequence sorted non-increasing by score (in particular whenever `results` is
a non-empty mapping it is that mapping sorted descending), and when `results`
is absent it returns the empty sequence without caching it — the session
state is completely unchanged, so a later refine recomputes fresh. -/
theorem ordered_results_sorted (ops : List Op) :
    List.Sorted scoreGe (ordered_results (runOps initialState ops).1).1 ∧
    (∀ m, (runOps initialState ops).1.results = some m →
      (ordered_results (runOps initialState ops).1).1 = sortResults m) ∧
    ((runOps initialState ops).1.results = none →
      (ordered_results (runOps initialState ops).1).1 = [] ∧
      (ordered_results (runOps initialState ops).1).2 =
        (runOps initialState ops).1) := by
  have hok : resultsCacheOK (runOps initialState ops).1 :=
    resultsCacheOK_runOps ops initialState (Or.inl rfl)
  have hspec := ordered_results_of_cacheOK (runOps initialState ops).1 hok
  refine ⟨?_, hspec.1, hspec.2⟩
  cases hm : (runOps initialState ops).1.results with
  | none => rw [(hspec.2 hm).1]; exact List.sorted_nil
  | some m => rw [hspec.1 m hm]; exact List.sorted_insertionSort scoreGe m

/-- C9 witness: on the fresh session (empty op sequence) `results` is absent,
the returned sequence is empty and sorted, and the state is unchanged (the
empty result is not cached). -/
theorem ordered_results_sorted_witness :
    List.Sorted scoreGe (ordered_results (runOps initialState []).1).1 ∧
    (ordered_results (runOps initialState []).1).1 = [] ∧
    (ordered_results (runOps initialState []).1).2 = (runOps initialState []).1 :=
  ⟨(ordered_results_sorted []).1,
   ((ordered_results_sorted []).2.2 rfl).1,
   ((ordered_results_sorted []).2.2 rfl).2⟩

lemma uwsLoop_all_seeded (nn : DescriptorElement → Nat → List DescriptorElement)
    (k : Nat) : ∀ (ps : List DescriptorElement) (ws : Finset DescriptorElement)
    (seeds : Finset Nat) (log : List Nat),
    (∀ p ∈ ps, p.uuid ∈ seeds) → uwsLoop nn k ps ws seeds log = (ws, seeds, log)
  | [], _, _, _, _ => rfl
  | p :: rest, ws, seeds, log, h => by
    rw [uwsLoop, if_pos (h p (List.mem_cons_self p rest))]
    exact uwsLoop_all_seeded nn k rest ws seeds log
      (fun q hq => h q (List.mem_cons_of_mem p hq))

lemma uwsLoop_fresh (nn : DescriptorElement → Nat → List DescriptorElement)
    (k : Nat) : ∀ (ps : List DescriptorElement) (ws : Finset DescriptorElement)
    (seeds : Finset Nat) (log : List Nat),
    seeds ⊆ (uwsLoop nn k ps ws seeds log).2.1 ∧
    ∃ nl, (uwsLoop nn k ps ws seeds log).2.2 = log ++ nl ∧ nl.Nodup ∧
      ∀ u ∈ nl, u ∉ seeds ∧ u ∈ (uwsLoop nn k ps ws seeds log).2.1
  | [], ws, seeds, log => by
    exact ⟨Finset.Subset.refl seeds, [], (List.append_nil log).symm,
      List.nodup_nil, by simp⟩
  | p :: rest, ws, seeds, log => by
    by_cases hp : p.uuid ∈ seeds
    · rw [uwsLoop, if_pos hp]
      exact uwsLoop_fresh nn k rest ws seeds log
    · rw [uwsLoop, if_neg hp]
      obtain ⟨hsub, nl, hlog, hnd, hfresh⟩ :=
        uwsLoop_fresh nn k rest (ws ∪ (nn p k).toFinset) (insert p.uuid seeds)
          (log ++ [p.uuid])
      refine ⟨fun u hu => hsub (Finset.mem_insert_of_mem hu),
        p.uuid :: nl, ?_, ?_, ?_⟩
      · rw [hlog, List.append_assoc]
        rfl
      · refine List.nodup_cons.mpr ⟨fun hmem => ?_, hnd⟩
        exact (hfresh p.uuid hmem).1 (Finset.mem_insert_self p.uuid seeds)
      · intro u hu
        rcases List.mem_cons.mp hu with hu | hu
        · subst hu
          exact ⟨hp, hsub (Finset.mem_insert_self p.uuid seeds)⟩
        · exact ⟨fun hin => (hfresh u hu).1 (Finset.mem_insert_of_mem hin),
            (hfresh u hu).2⟩

lemma step_seed_spec (s : IqrSession) (op : Op) (h : opResets op = false) :
    s.wi_seeds_used ⊆ (step s op).1.wi_seeds_used ∧
    (step s op).2.Nodup ∧
    ∀ u ∈ (step s op).2,
      u ∉ s.wi_seeds_used ∧ u ∈ (step s op).1.wi_seeds_used := by
  cases op with
  | adj np nng up ung =>
    exact ⟨Finset.Subset.refl _, List.nodup_nil, by simp [step]⟩
  | ext p n =>
    exact ⟨Finset.Subset.refl _, List.nodup_nil, by simp [step]⟩
  | ref =>
    have hse : (step s Op.ref).1.wi_seeds_used = s.wi_seeds_used := by
      show (refine s).1.wi_seeds_used = s.wi_seeds_used
      cases hr : s.rel_index with
      | none => simp [refine, hr]
      | some rank =>
        by_cases hp : refinePos s = ∅ <;> simp [refine, hr, hp]
    exact ⟨hse ▸ Finset.Subset.refl _, List.nodup_nil, by simp [step]⟩
  | rst => cases h
  | setState a factory => cases h
  | viewAll =>
    have hse : (ordered_results s).2.wi_seeds_used = s.wi_seeds_used := by
      cases hc : s.ordered_results_cache with
      | some r => simp [ordered_results, hc]
      | none =>
        cases hm : s.results with
        | none => simp [ordered_results, hc, hm]
        | some m => simp [ordered_results, hc, hm]
    exact ⟨hse ▸ Finset.Subset.refl _, List.nodup_nil, by simp [step]⟩
  | viewPos =>
    have hse :
        (get_positive_adjudication_relevancy s).2.wi_seeds_used =
          s.wi_seeds_used := by
      cases hc : s.ordered_pos_cache with
      | some r => simp [get_positive_adjudication_relevancy, hc]
      | none =>
        simp only [get_positive_adjudication_relevancy, hc]
        cases hc2 : s.ordered_results_cache with
        | some r => simp [ordered_results, hc2]
        | none =>
          cases hm : s.results with
          | none => simp [ordered_results, hc2, hm]
          | some m => simp [ordered_results, hc2, hm]
    exact ⟨hse ▸ Finset.Subset.refl _, List.nodup_nil, by simp [step]⟩
  | viewNeg =>
    have hse :
        (get_negative_adjudication_relevancy s).2.wi_seeds_used =
          s.wi_seeds_used := by
      cases hc : s.ordered_neg_cache with
      | some r => simp [get_negative_adjudication_relevancy, hc]
      | none =>
        simp only [get_negative_adjudication_relevancy, hc]
        cases hc2 : s.ordered_results_cache with
        | some r => simp [ordered_results, hc2]
        | none =>
          cases hm : s.results with
          | none => simp [ordered_results, hc2, hm]
          | some m => simp [ordered_results, hc2, hm]
    exact ⟨hse ▸ Finset.Subset.refl _, List.nodup_nil, by simp [step]⟩
  | viewUnadj =>
    have hse :
        (get_unadjudicated_relevancy s).2.wi_seeds_used = s.wi_seeds_used := by
      cases hc : s.ordered_non_adj_cache with
      | some r => simp [get_unadjudicated_relevancy, hc]
      | none =>
        simp only [get_unadjudicated_relevancy, hc]
        cases hc2 : s.ordered_results_cache with
        | some r => simp [ordered_results, hc2]
        | none =>
          cases hm : s.results with
          | none => simp [ordered_results, hc2, hm]
          | some m => simp [ordered_results, hc2, hm]
    exact ⟨hse ▸ Finset.Subset.refl _, List.nodup_nil, by simp [step]⟩
  | uws nn mk ps =>
    show s.wi_seeds_used ⊆ (update_working_set s nn mk ps).1.wi_seeds_used ∧
      (update_working_set s nn mk ps).2.2.Nodup ∧
      ∀ u ∈ (update_working_set s nn mk ps).2.2,
        u ∉ s.wi_seeds_used ∧
          u ∈ (update_working_set s nn mk ps).1.wi_seeds_used
    by_cases he : posExamples s = ∅
    · simp [update_working_set, he]
    · obtain ⟨hsub, nl, hlog, hnd, hfresh⟩ :=
        uwsLoop_fresh nn s.pos_seed_neighbors ps s.working_set
          s.wi_seeds_used []
      rw [List.nil_append] at hlog
      have hseeds :
          (update_working_set s nn mk ps).1.wi_seeds_used =
            (uwsLoop nn s.pos_seed_neighbors ps s.working_set
              s.wi_seeds_used []).2.1 := by
        simp only [update_working_set, he, if_neg, not_false_iff]
        split <;> rfl
      have hlog2 :
          (update_working_set s nn mk ps).2.2 =
            (uwsLoop nn s.pos_seed_neighbors ps s.working_set
              s.wi_seeds_used []).2.2 := by
        simp only [update_working_set, he, if_neg, not_false_iff]
        split <;> rfl
      rw [hseeds, hlog2, hlog]
      exact ⟨hsub, hnd, hfresh⟩

lemma runOps_seed_spec : ∀ (ops : List Op) (s : IqrSession),
    (∀ op ∈ ops, opResets op = false) →
    s.wi_seeds_used ⊆ (runOps s ops).1.wi_seeds_used ∧
    (runOps s ops).2.Nodup ∧
    ∀ u ∈ (runOps s ops).2,
      u ∉ s.wi_seeds_used ∧ u ∈ (runOps s ops).1.wi_seeds_used
  | [], s, _ => ⟨Finset.Subset.refl _, List.nodup_nil, by simp [runOps]⟩
  | op :: rest, s, h => by
    have hop := step_seed_spec s op (h op (List.mem_cons_self op rest))
    have hrest := runOps_seed_spec rest (step s op).1
      (fun o ho => h o (List.mem_cons_of_mem op ho))
    have hfinal : (runOps s (op :: rest)).1 = (runOps (step s op).1 rest).1 := rfl
    have hlog : (runOps s (op :: rest)).2 =
        (step s op).2 ++ (runOps (step s op).1 rest).2 := rfl
    rw [hfinal, hlog]
    refine ⟨Finset.Subset.trans hop.1 hrest.1, ?_, ?_⟩
    · refine List.Nodup.append hop.2.1 hrest.2.1 ?_
      intro u hu1 hu2
      exact (hrest.2.2 u hu2).1 ((hop.2.2 u hu1).2)
    · intro u hu
      rcases List.mem_append.mp hu with hu | hu
      · exact ⟨(hop.2.2 u hu).1, hrest.1 (hop.2.2 u hu).2⟩
      · exact ⟨fun hin => (hrest.2.2 u hu).1 (hop.1 hin), (hrest.2.2 u hu).2⟩

/-- C7: when every identifier in `positive ∪ externalPositive` is already in
the used-seed set, `update_working_set` issues zero neighbor queries and
leaves the session (working set, used seeds, relevancy index) unchanged; and
over any reset-free call sequence from a fresh session, no seed identifier is
ever queried against the neighbor index twice. -/
theorem seed_queries_at_most_once :
    (∀ (s : IqrSession) (nn : DescriptorElement → Nat → List DescriptorElement)
      (mk : Finset DescriptorElement → RankFn) (ps : List DescriptorElement),
      ps.toFinset = posExamples s →
      posExamples s ≠ ∅ →
      (∀ p ∈ posExamples s, p.uuid ∈ s.wi_seeds_used) →
      update_working_set s nn mk ps = (s, none, [])) ∧
    (∀ ops : List Op, (∀ op ∈ ops, opResets op = false) →
      ((runOps initialState ops).2).Nodup) := by
  constructor
  · intro s nn mk ps hps hne hseeded
    have hall : ∀ p ∈ ps, p.uuid ∈ s.wi_seeds_used := fun p hp =>
      hseeded p (hps ▸ List.mem_toFinset.mpr hp)
    rw [update_working_set, if_neg hne,
      uwsLoop_all_seeded nn s.pos_seed_neighbors ps s.working_set
        s.wi_seeds_used [] hall]
    rfl
  · exact fun ops h => (runOps_seed_spec ops initialState h).2.1

/-- A concrete seed element, session, neighbor index, ranker constructor and
op list for the C7 witness. -/
def dW7 : DescriptorElement := ⟨7, "a", none⟩

/-- Session whose only positive example's identifier is already a used
seed. -/
def sW7 : IqrSession :=
  { initialState with positive_descriptors := {dW7}, wi_seeds_used := {7} }

/-- Stub neighbor index for the C7 witness. -/
def nnW7 : DescriptorElement → Nat → List DescriptorElement := fun _ _ => [dW7]

/-- Stub ranker constructor for the C7 witness. -/
def mkW7 : Finset DescriptorElement → RankFn := fun _ => fun _ _ => []

/-- A reset-free op sequence for the C7 witness. -/
def opsW7 : List Op := [Op.adj {dW7} ∅ ∅ ∅, Op.uws nnW7 mkW7 [dW7]]

/-- C7 witness: at the concrete session whose positive example is already a
consumed seed, `update_working_set` is a no-op with an empty query log; and
the query log of a concrete reset-free run has no duplicates. -/
theorem seed_queries_at_most_once_witness :
    update_working_set sW7 nnW7 mkW7 [dW7] = (sW7, none, []) ∧
    (runOps initialState opsW7).2.Nodup :=
  ⟨seed_queries_at_most_once.1 sW7 nnW7 mkW7 [dW7] (by decide) (by decide)
      (by decide),
   seed_queries_at_most_once.2 opsW7 (by
      intro op hop
      rcases List.mem_cons.mp hop with rfl | hop
      · rfl
      · rcases List.mem_cons.mp hop with rfl | hop
        · rfl
        · cases hop)⟩

/-- The set of descriptor elements occurring in a view (first components). -/
def elemSet (l : List (DescriptorElement × Score)) : Finset DescriptorElement :=
  (l.map Prod.fst).toFinset

lemma mem_elemSet_filter (l : List (DescriptorElement × Score))
    (q : DescriptorElement → Prop) [DecidablePred q] (e : DescriptorElement) :
    e ∈ elemSet (l.filter (fun t => decide (q t.1))) ↔ e ∈ elemSet l ∧ q e := by
  simp only [elemSet, List.mem_toFinset, List.mem_map, List.mem_filter,
    decide_eq_true_eq]
  constructor
  · rintro ⟨t, ⟨ht, hq⟩, rfl⟩
    exact ⟨⟨t, ht, rfl⟩, hq⟩
  · rintro ⟨⟨t, ht, rfl⟩, hq⟩
    exact ⟨t, ⟨ht, hq⟩, rfl⟩

lemma elemSet_filter (l : List (DescriptorElement × Score))
    (q : DescriptorElement → Prop) [DecidablePred q] :
    elemSet (l.filter (fun t => decide (q t.1))) = (elemSet l).filter q := by
  ext e
  simp only [elemSet, List.mem_toFinset, List.mem_map, List.mem_filter,
    decide_eq_true_eq, Finset.mem_filter]
  constructor
  · rintro ⟨t, ⟨ht, hq⟩, rfl⟩
    exact ⟨⟨t, ht, rfl⟩, hq⟩
  · rintro ⟨⟨t, ht, rfl⟩, hq⟩
    exact ⟨t, ⟨ht, hq⟩, rfl⟩

lemma views_partition (s' : IqrSession) (m : List (DescriptorElement × Score))
    (hc1 : s'.ordered_results_cache = none) (hc2 : s'.ordered_pos_cache = none)
    (hc3 : s'.ordered_neg_cache = none) (hc4 : s'.ordered_non_adj_cache = none)
    (hm : s'.results = some m) :
    elemSet (get_positive_adjudication_relevancy s').1 ∪
      elemSet (get_negative_adjudication_relevancy s').1 ∪
      elemSet (get_unadjudicated_relevancy s').1 =
      elemSet (ordered_results s').1 ∧
    Disjoint (elemSet (get_positive_adjudication_relevancy s').1)
      (elemSet (get_unadjudicated_relevancy s').1) ∧
    Disjoint (elemSet (get_negative_adjudication_relevancy s').1)
      (elemSet (get_unadjudicated_relevancy s').1) ∧
    (Disjoint (s'.rank_contrib_pos ∪ s'.rank_contrib_pos_ext)
        (s'.rank_contrib_neg ∪ s'.rank_contrib_neg_ext) →
      Disjoint (elemSet (get_positive_adjudication_relevancy s').1)
        (elemSet (get_negative_adjudication_relevancy s').1)) := by
  have hA : (ordered_results s').1 = sortResults m := by
    simp only [ordered_results, hc1, hm]
  have hP : elemSet (get_positive_adjudication_relevancy s').1 =
      (elemSet (sortResults m)).filter
        (fun e => e ∈ s'.rank_contrib_pos ∪ s'.rank_contrib_pos_ext) := by
    have h1 : (get_positive_adjudication_relevancy s').1 =
        (sortResults m).filter (fun t =>
          decide (t.1 ∈ s'.rank_contrib_pos ∪ s'.rank_contrib_pos_ext)) := by
      simp only [get_positive_adjudication_relevancy, hc2, ordered_results,
        hc1, hm]
    rw [h1, elemSet_filter (sortResults m)
      (fun e => e ∈ s'.rank_contrib_pos ∪ s'.rank_contrib_pos_ext)]
  have hN : elemSet (get_negative_adjudication_relevancy s').1 =
      (elemSet (sortResults m)).filter
        (fun e => e ∈ s'.rank_contrib_neg ∪ s'.rank_contrib_neg_ext) := by
    have h1 : (get_negative_adjudication_relevancy s').1 =
        (sortResults m).filter (fun t =>
          decide (t.1 ∈ s'.rank_contrib_neg ∪ s'.rank_contrib_neg_ext)) := by
      simp only [get_negative_adjudication_relevancy, hc3, ordered_results,
        hc1, hm]
    rw [h1, elemSet_filter (sortResults m)
      (fun e => e ∈ s'.rank_contrib_neg ∪ s'.rank_contrib_neg_ext)]
  have hU : elemSet (get_unadjudicated_relevancy s').1 =
      (elemSet (sortResults m)).filter
        (fun e => e ∉ s'.rank_contrib_pos ∪ s'.rank_contrib_pos_ext ∪
          s'.rank_contrib_neg ∪ s'.rank_contrib_neg_ext) := by
    have h1 : (get_unadjudicated_relevancy s').1 =
        (sortResults m).filter (fun t =>
          decide (t.1 ∉ s'.rank_contrib_pos ∪ s'.rank_contrib_pos_ext ∪
            s'.rank_contrib_neg ∪ s'.rank_contrib_neg_ext)) := by
      simp only [get_unadjudicated_relevancy, hc4, ordered_results, hc1, hm]
    rw [h1, elemSet_filter (sortResults m)
      (fun e => e ∉ s'.rank_contrib_pos ∪ s'.rank_contrib_pos_ext ∪
        s'.rank_contrib_neg ∪ s'.rank_contrib_neg_ext)]
  rw [hA, hP, hN, hU]
  refine ⟨?_, ?_, ?_, ?_⟩
  · ext e
    simp only [Finset.mem_union, Finset.mem_filter]
    constructor
    · rintro ((⟨he, _⟩ | ⟨he, _⟩) | ⟨he, _⟩) <;> exact he
    · intro he
      by_cases hp : e ∈ s'.rank_contrib_pos ∪ s'.rank_contrib_pos_ext
      · rw [Finset.mem_union] at hp
        exact Or.inl (Or.inl ⟨he, hp⟩)
      · by_cases hn : e ∈ s'.rank_contrib_neg ∪ s'.rank_contrib_neg_ext
        · rw [Finset.mem_union] at hn
          exact Or.inl (Or.inr ⟨he, hn⟩)
        · refine Or.inr ⟨he, ?_⟩
          simp only [Finset.mem_union] at hp hn ⊢
          tauto
  · rw [Finset.disjoint_left]
    intro e heP heU
    rw [Finset.mem_filter] at heP heU
    refine heU.2 ?_
    simp only [Finset.mem_union] at heP ⊢
    tauto
  · rw [Finset.disjoint_left]
    intro e heN heU
    rw [Finset.mem_filter] at heN heU
    refine heU.2 ?_
    simp only [Finset.mem_union] at heN ⊢
    tauto
  · intro hdis
    rw [Finset.disjoint_left] at hdis ⊢
    intro e heP heN
    rw [Finset.mem_filter] at heP heN
    exact hdis heP.2 heN.2

/-- C3 (amended): after every successful `refine` (no intervening
operations), the element sets of `orderedPositive`, `orderedNegative` and
`orderedUnlabeled` cover exactly the element set of `orderedAll`,
`orderedUnlabeled` is disjoint from each of the other two, and
`orderedPositive` and `orderedNegative` are disjoint provided the combined
positive and combined negative adjudication sets were disjoint at refine
time (which `adjudicate` / `external_descriptors` alone do not guarantee
across the internal/external pairs). -/
theorem refine_view_partition (s s' : IqrSession) (h : refine s = (s', none)) :
    elemSet (get_positive_adjudication_relevancy s').1 ∪
      elemSet (get_negative_adjudication_relevancy s').1 ∪
      elemSet (get_unadjudicated_relevancy s').1 =
      elemSet (ordered_results s').1 ∧
    Disjoint (elemSet (get_positive_adjudication_relevancy s').1)
      (elemSet (get_unadjudicated_relevancy s').1) ∧
    Disjoint (elemSet (get_negative_adjudication_relevancy s').1)
      (elemSet (get_unadjudicated_relevancy s').1) ∧
    (Disjoint (refinePos s) (refineNeg s) →
      Disjoint (elemSet (get_positive_adjudication_relevancy s').1)
        (elemSet (get_negative_adjudication_relevancy s').1)) := by
  cases hr : s.rel_index with
  | none =>
    simp only [refine, hr] at h
    exact Option.noConfusion (congrArg Prod.snd h)
  | some rank =>
    by_cases hp : refinePos s = ∅
    · simp [refine, hr, hp] at h
    · have h2 := h
      simp only [refine, hr, hp, if_neg, not_false_iff, Prod.mk.injEq] at h2
      obtain ⟨h2, -⟩ := h2
      subst h2
      exact views_partition _ (rank (refinePos s) (refineNeg s))
        rfl rfl rfl rfl rfl

/-- A concrete descriptor element for the C3 counterexample. -/
def dX : DescriptorElement := ⟨1, "t", some [1]⟩

/-- Stub ranking function scoring `dX` for the C3 counterexample. -/
def rankX : RankFn := fun _ _ => [(dX, 1)]

/-- Stub neighbor index for the C3 counterexample. -/
def nnX : DescriptorElement → Nat → List DescriptorElement := fun _ _ => [dX]

/-- Stub ranker constructor for the C3 counterexample. -/
def mkX : Finset DescriptorElement → RankFn := fun _ => rankX

/-- `adjudicate(newPos={dX})` on a fresh session. -/
def exC3a : IqrSession := adjudicate initialState {dX} ∅ ∅ ∅

/-- ...then `external_descriptors(negative={dX})`. -/
def exC3b : IqrSession := external_descriptors exC3a ∅ {dX}

/-- ...then `update_working_set` with the stub neighbor index. -/
def exC3c : IqrSession := (update_working_set exC3b nnX mkX [dX]).1

/-- ...then a successful `refine`. -/
def exC3 : IqrSession := (refine exC3c).1

/-- C3 counterexample: a session reached by `adjudicate(newPos={dX})`,
`external_descriptors(negative={dX})`, `update_working_set`, then a
successful `refine`, in which `dX` appears in both the `orderedPositive` and
`orderedNegative` views — the three views are not pairwise disjoint as the
claim states. -/
theorem refine_views_not_disjoint :
    (refine exC3c).2 = none ∧
    dX ∈ elemSet (get_positive_adjudication_relevancy exC3).1 ∧
    dX ∈ elemSet (get_negative_adjudication_relevancy exC3).1 ∧
    ¬ Disjoint (elemSet (get_positive_adjudication_relevancy exC3).1)
      (elemSet (get_negative_adjudication_relevancy exC3).1) := by
  refine ⟨by decide, by decide, by decide, ?_⟩
  exact Finset.not_disjoint_iff.mpr ⟨dX, by decide, by decide⟩

/-- A concrete descriptor element for the C3 witness. -/
def dW3 : DescriptorElement := ⟨3, "w", some [1]⟩

/-- A session with a relevancy index and one positive adjudication for the
C3 witness. -/
def sW3 : IqrSession :=
  { initialState with
    positive_descriptors := {dW3}
    rel_index := some (fun _ _ => [(dW3, 1)]) }

/-- C3 witness: the amended partition statement instantiated at a concrete
successful refine. -/
theorem refine_view_partition_witness :
    elemSet (get_positive_adjudication_relevancy (refine sW3).1).1 ∪
      elemSet (get_negative_adjudication_relevancy (refine sW3).1).1 ∪
      elemSet (get_unadjudicated_relevancy (refine sW3).1).1 =
      elemSet (ordered_results (refine sW3).1).1 ∧
    Disjoint (elemSet (get_positive_adjudication_relevancy (refine sW3).1).1)
      (elemSet (get_unadjudicated_relevancy (refine sW3).1).1) ∧
    Disjoint (elemSet (get_negative_adjudication_relevancy (refine sW3).1).1)
      (elemSet (get_unadjudicated_relevancy (refine sW3).1).1) ∧
    (Disjoint (refinePos sW3) (refineNeg sW3) →
      Disjoint (elemSet (get_positive_adjudication_relevancy (refine sW3).1).1)
        (elemSet (get_negative_adjudication_relevancy (refine sW3).1).1)) :=
  refine_view_partition sW3 (refine sW3).1 rfl

/-- C2 (amended): the errors raised by `update_working_set`
(no-positive-examples), `refine` (not-initialized and
no-positive-adjudications) and the invalid-archive error of
`set_state_bytes` are all raised before any mutation, leaving the session
state exactly as before the call.  (The vector-mismatch error of
`set_state_bytes` is excluded: it is raised after the session has already
been reset and partially reloaded.) -/
theorem errors_before_mutation (s : IqrSession)
    (nn : DescriptorElement → Nat → List DescriptorElement)
    (mk : Finset DescriptorElement → RankFn) (ps : List DescriptorElement)
    (a : StateArchive) (factory : DescriptorFactory) :
    ((update_working_set s nn mk ps).2.1.isSome →
      (update_working_set s nn mk ps).1 = s) ∧
    ((refine s).2.isSome → (refine s).1 = s) ∧
    ((set_state_bytes s a factory).2 = some IqrError.invalidStateArchive →
      (set_state_bytes s a factory).1 = s) := by
  refine ⟨?_, ?_, ?_⟩
  · intro h
    by_cases he : posExamples s = ∅
    · simp [update_working_set, he]
    · exfalso
      revert h
      simp only [update_working_set, he, if_neg, not_false_iff]
      split <;> simp
  · intro h
    cases hr : s.rel_index with
    | none => simp [refine, hr]
    | some rank =>
      by_cases hp : refinePos s = ∅
      · simp [refine, hr, hp]
      · exfalso
        revert h
        simp [refine, hr, hp]
  · intro h
    cases hl : a.entries.lookup STATE_ZIP_FILENAME with
    | none => simp [set_state_bytes, hl]
    | some st =>
      exfalso
      revert h
      simp only [set_state_bytes, hl]
      split
      · simp
      · split
        · simp
        · split
          · simp
          · split <;> simp

/-- A concrete descriptor element for the C2 counterexample. -/
def dZ : DescriptorElement := ⟨3, "t", some [7]⟩

/-- A session with one positive adjudication for the C2 counterexample. -/
def exC2 : IqrSession := adjudicate initialState {dZ} ∅ ∅ ∅

/-- An archive whose `external_pos` entry will collide with the factory's
pre-existing vector. -/
def badArchive : StateArchive :=
  ⟨[(STATE_ZIP_FILENAME, ⟨[], [], [(4, "t", [5])], []⟩)]⟩

/-- A factory returning elements that already carry a different vector. -/
def badFactoryW : DescriptorFactory := fun t u => ⟨u, t, some [9]⟩

/-- The empty state archive (no entries). -/
def emptyArchive : StateArchive := ⟨[]⟩

/-- C2 witness: on a fresh session with no positive examples, no relevancy
index, and an empty archive, all three early-error paths fire and leave the
state exactly unchanged. -/
theorem errors_before_mutation_witness :
    (update_working_set initialState nnX mkX []).1 = initialState ∧
    (refine initialState).1 = initialState ∧
    (set_state_bytes initialState emptyArchive badFactoryW).1 = initialState :=
  ⟨(errors_before_mutation initialState nnX mkX [] emptyArchive badFactoryW).1
      (by decide),
   (errors_before_mutation initialState nnX mkX [] emptyArchive
      badFactoryW).2.1 (by decide),
   (errors_before_mutation initialState nnX mkX [] emptyArchive
      badFactoryW).2.2 (by decide)⟩

/-- C2 counterexample: importing `badArchive` into a session holding one
positive adjudication raises the vector-mismatch error, yet the session
state after the call differs from the state before it (the positive set has
been cleared by the internal reset) — contradicting the claim that no error
leaves the session changed. -/
theorem vector_mismatch_mutates_state :
    (set_state_bytes exC2 badArchive badFactoryW).2 =
      some IqrError.vectorMismatch ∧
    (set_state_bytes exC2 badArchive badFactoryW).1.positive_descriptors ≠
      exC2.positive_descriptors := by
  constructor
  · decide
  · decide

/-- A concrete descriptor element for the C10 theorem. -/
def dY : DescriptorElement := ⟨9, "t", some [2]⟩

/-- Stub neighbor index for the C10 theorem. -/
def nnY : DescriptorElement → Nat → List DescriptorElement := fun _ _ => [dY]

/-- Stub ranker constructor for the C10 theorem. -/
def mkY : Finset DescriptorElement → RankFn := fun _ => fun _ _ => [(dY, 1)]

/-- `adjudicate(newPos={dY})` on a fresh session. -/
def exC10a : IqrSession := adjudicate initialState {dY} ∅ ∅ ∅

/-- ...then `external_descriptors(negative={dY})`. -/
def exC10b : IqrSession := external_descriptors exC10a ∅ {dY}

/-- ...then `update_working_set` with the stub neighbor index. -/
def exC10c : IqrSession := (update_working_set exC10b nnY mkY [dY]).1

/-- C10: after `adjudicate(newPos={dY})` followed by
`external_descriptors(negative={dY})`, the element `dY` is simultaneously in
`positive` and `externalNegative` (no operation maintains disjointness
across the internal/external pairs), and the subsequent successful `refine`
passes `dY` in both the positive and negative sets given to the ranker. -/
theorem positive_and_external_negative_overlap :
    dY ∈ exC10b.positive_descriptors ∧
    dY ∈ exC10b.external_negative_descriptors ∧
    (refine exC10c).2 = none ∧
    dY ∈ refinePos exC10c ∧ dY ∈ refineNeg exC10c := by
  refine ⟨by decide, by decide, by decide, by decide, by decide⟩

/-- Restore a serialized triple to its descriptor element. -/
def restoreT (t : Triple) : DescriptorElement := ⟨t.1, t.2.1, some t.2.2⟩

lemma d_set_to_list_some : ∀ (l : List DescriptorElement),
    (∀ d ∈ l, d.vec ≠ none) →
    ∃ tl, d_set_to_list l = some tl ∧ tl.map restoreT = l := by
  intro l
  induction l with
  | nil => exact fun _ => ⟨[], rfl, rfl⟩
  | cons d rest ih =>
    intro hv
    obtain ⟨tl, htl, hmap⟩ := ih (fun e he => hv e (List.mem_cons_of_mem d he))
    obtain ⟨u, ty, vec⟩ := d
    cases vec with
    | none =>
      exact absurd rfl (hv ⟨u, ty, none⟩ (List.mem_cons_self _ rest))
    | some v =>
      refine ⟨(u, ty, v) :: tl, ?_, ?_⟩
      · simp only [d_set_to_list, htl]
        rfl
      · simp only [List.map_cons, hmap, List.cons.injEq]
        exact ⟨rfl, trivial⟩

lemma loadList_fresh (factory : DescriptorFactory)
    (hf : ∀ t u, factory t u = ⟨u, t, none⟩) :
    ∀ (tl : List Triple) (acc : Finset DescriptorElement),
    (loadList factory tl acc).2 = true ∧
    (loadList factory tl acc).1 = acc ∪ (tl.map restoreT).toFinset := by
  intro tl
  induction tl with
  | nil => exact fun acc => ⟨rfl, by simp [loadList]⟩
  | cons t rest ih =>
    intro acc
    have hload : load_descriptor factory t.1 t.2.1 t.2.2 = some (restoreT t) := by
      unfold load_descriptor
      rw [hf]
      rfl
    obtain ⟨hflag, hset⟩ := ih (insert (restoreT t) acc)
    constructor
    · simp only [loadList, hload]
      exact hflag
    · simp only [loadList, hload, hset, List.map_cons, List.toFinset_cons,
        Finset.insert_union, Finset.union_insert]

lemma set_state_bytes_fresh (s : IqrSession) (st : StateData)
    (factory : DescriptorFactory) (hf : ∀ t u, factory t u = ⟨u, t, none⟩) :
    set_state_bytes s ⟨[(STATE_ZIP_FILENAME, st)]⟩ factory =
      ({ reset s with
          external_positive_descriptors := (st.external_pos.map restoreT).toFinset
          external_negative_descriptors := (st.external_neg.map restoreT).toFinset
          positive_descriptors := (st.pos.map restoreT).toFinset
          negative_descriptors := (st.neg.map restoreT).toFinset }, none) := by
  have hlk : (StateArchive.mk [(STATE_ZIP_FILENAME, st)]).entries.lookup
      STATE_ZIP_FILENAME = some st := by
    simp [List.lookup]
  have h1 := loadList_fresh factory hf st.external_pos
    (reset s).external_positive_descriptors
  have h2 := loadList_fresh factory hf st.external_neg
    (reset s).external_negative_descriptors
  have h3 := loadList_fresh factory hf st.pos (reset s).positive_descriptors
  have h4 := loadList_fresh factory hf st.neg (reset s).negative_descriptors
  simp only [set_state_bytes, hlk]
  simp only [h1.1, h1.2, h2.1, h2.2, h3.1, h3.2, h4.1, h4.2]
  simp [reset, Prod.ext_iff]

/-- C6: exporting the session state, resetting, then importing the exported
archive with a factory that builds fresh (vector-less) elements from
`(type, identifier)` restores the four ledger sets exactly — same
identifiers, types and vectors, order irrelevant — while the working set,
used seeds, results and relevancy index remain empty/absent after the
import.  The list arguments enumerate the four ledger sets (the unspecified
Python set iteration orders); every exported descriptor must carry a
vector. -/
theorem state_bytes_roundtrip (s : IqrSession)
    (posL negL eposL enegL : List DescriptorElement)
    (factory : DescriptorFactory)
    (hp : posL.toFinset = s.positive_descriptors)
    (hn : negL.toFinset = s.negative_descriptors)
    (hep : eposL.toFinset = s.external_positive_descriptors)
    (hen : enegL.toFinset = s.external_negative_descriptors)
    (hv : ∀ d ∈ posL ++ negL ++ eposL ++ enegL, d.vec ≠ none)
    (hf : ∀ t u, factory t u = ⟨u, t, none⟩) :
    ∃ a, get_state_bytes s posL negL eposL enegL = some a ∧
      (set_state_bytes (reset s) a factory).2 = none ∧
      (set_state_bytes (reset s) a factory).1.positive_descriptors =
        s.positive_descriptors ∧
      (set_state_bytes (reset s) a factory).1.negative_descriptors =
        s.negative_descriptors ∧
      (set_state_bytes (reset s) a factory).1.external_positive_descriptors =
        s.external_positive_descriptors ∧
      (set_state_bytes (reset s) a factory).1.external_negative_descriptors =
        s.external_negative_descriptors ∧
      (set_state_bytes (reset s) a factory).1.working_set = ∅ ∧
      (set_state_bytes (reset s) a factory).1.wi_seeds_used = ∅ ∧
      (set_state_bytes (reset s) a factory).1.results = none ∧
      (set_state_bytes (reset s) a factory).1.rel_index = none := by
  obtain ⟨tlp, htlp, hmp⟩ := d_set_to_list_some posL
    (fun d hd => hv d (by simp [List.mem_append, hd]))
  obtain ⟨tln, htln, hmn⟩ := d_set_to_list_some negL
    (fun d hd => hv d (by simp [List.mem_append, hd]))
  obtain ⟨tlep, htlep, hmep⟩ := d_set_to_list_some eposL
    (fun d hd => hv d (by simp [List.mem_append, hd]))
  obtain ⟨tlen, htlen, hmen⟩ := d_set_to_list_some enegL
    (fun d hd => hv d (by simp [List.mem_append, hd]))
  refine ⟨⟨[(STATE_ZIP_FILENAME, ⟨tlp, tln, tlep, tlen⟩)]⟩, ?_, ?_⟩
  · simp [get_state_bytes, htlp, htln, htlep, htlen]
  · rw [set_state_bytes_fresh (reset s) ⟨tlp, tln, tlep, tlen⟩ factory hf]
    refine ⟨rfl, ?_, ?_, ?_, ?_, rfl, rfl, rfl, rfl⟩
    · show (tlp.map restoreT).toFinset = s.positive_descriptors
      rw [hmp, hp]
    · show (tln.map restoreT).toFinset = s.negative_descriptors
      rw [hmn, hn]
    · show (tlep.map restoreT).toFinset = s.external_positive_descriptors
      rw [hmep, hep]
    · show (tlen.map restoreT).toFinset = s.external_negative_descriptors
      rw [hmen, hen]

/-- A concrete session with a populated ledger for the C6 witness. -/
def sW6 : IqrSession :=
  { initialState with
    positive_descriptors := {⟨1, "a", some [2, 3]⟩}
    negative_descriptors := {⟨2, "a", some [4]⟩}
    external_positive_descriptors := {⟨5, "b", some [6]⟩}
    external_negative_descriptors := {⟨8, "b", some [7]⟩} }

/-- A fresh-element factory for the C6 witness. -/
def freshFactory : DescriptorFactory := fun t u => ⟨u, t, none⟩

/-- C6 witness: the round trip at a concrete populated session with a fresh
descriptor factory restores all four ledger sets and leaves the derived
state empty. -/
theorem state_bytes_roundtrip_witness :
    ∃ a, get_state_bytes sW6 [⟨1, "a", some [2, 3]⟩] [⟨2, "a", some [4]⟩]
        [⟨5, "b", some [6]⟩] [⟨8, "b", some [7]⟩] = some a ∧
      (set_state_bytes (reset sW6) a freshFactory).2 = none ∧
      (set_state_bytes (reset sW6) a freshFactory).1.positive_descriptors =
        sW6.positive_descriptors ∧
      (set_state_bytes (reset sW6) a freshFactory).1.negative_descriptors =
        sW6.negative_descriptors ∧
      (set_state_bytes (reset sW6) a
          freshFactory).1.external_positive_descriptors =
        sW6.external_positive_descriptors ∧
      (set_state_bytes (reset sW6) a
          freshFactory).1.external_negative_descriptors =
        sW6.external_negative_descriptors ∧
      (set_state_bytes (reset sW6) a freshFactory).1.working_set = ∅ ∧
      (set_state_bytes (reset sW6) a freshFactory).1.wi_seeds_used = ∅ ∧
      (set_state_bytes (reset sW6) a freshFactory).1.results = none ∧
      (set_state_bytes (reset sW6) a freshFactory).1.rel_index = none :=
  state_bytes_roundtrip sW6 [⟨1, "a", some [2, 3]⟩] [⟨2, "a", some [4]⟩]
    [⟨5, "b", some [6]⟩] [⟨8, "b", some [7]⟩] freshFactory
    (by decide) (by decide) (by decide) (by decide) (by decide)
    (fun t u => rfl)
